import Mathlib

/-!
Verification development for the NeoOtto chat widget (src/index.tsx).

The behavioural core of the program is text processing over JavaScript
strings plus a small amount of page state.  We embed it shallowly:

* JavaScript strings are modelled as `List Char`;
* `String.prototype.trim`, `split('\n')`, and the two regular expressions
  of the source (`/\[SUGGESTIONS\]([\s\S]*?)\[\/SUGGESTIONS\]/` used by
  `processAndDisplaySuggestions`, and the same pattern with the `g` flag
  used for the streaming `displayText`) are given as executable functions;
* the page state touched by `initializeApp`, `sendMessageAndStreamResponse`
  and `processAndDisplaySuggestions` (message bubbles, disabled flags,
  the suggestion-chip container, the session handle) is a record, and each
  DOM-mutating routine becomes a state-transforming function.
-/

namespace NeoOtto

/-- The literal start token of the suggestion markup protocol. -/
def startMarker : List Char := "[SUGGESTIONS]".toList

/-- The literal end token of the suggestion markup protocol. -/
def endMarker : List Char := "[/SUGGESTIONS]".toList

/-- The whitespace class stripped by JavaScript `String.prototype.trim`,
restricted to the ASCII whitespace characters (the source never produces
the exotic Unicode space separators). -/
def isJsWs (c : Char) : Bool :=
  c == ' ' || c == '\t' || c == '\n' || c == '\r' || c == '\x0b' || c == '\x0c'

/-- JavaScript `s.trim()`: drop leading and trailing whitespace. -/
def trim (s : List Char) : List Char :=
  ((s.dropWhile isJsWs).reverse.dropWhile isJsWs).reverse

/-- JavaScript `s.split('\n')`: split at every newline, keeping empty
fields; the result is always nonempty. -/
def splitOnNl : List Char → List (List Char)
  | [] => [[]]
  | c :: rest =>
    if c = '\n' then [] :: splitOnNl rest
    else
      match splitOnNl rest with
      | [] => [[c]]
      | l :: ls => (c :: l) :: ls

/-- Helper for the line regex `/"(.*?)"/`: consume characters up to the
next `"` and return them; `.` in JavaScript does not match a line
terminator, so the scan fails on one (and at end of input). -/
def scanClose : List Char → Option (List Char)
  | [] => none
  | c :: rest =>
    if c = '"' then some []
    else if c = '\n' ∨ c = '\r' ∨ c = '\u2028' ∨ c = '\u2029' then none
    else (scanClose rest).map (c :: ·)

/-- JavaScript `s.match(/"(.*?)"/)`, returning the first capture group:
the content strictly between the first pair of double quotes separated by
no line terminator.  If the quote at a candidate position has no closing
quote before a line terminator, the regex engine moves on to the next
quote character, which is what the recursive call models. -/
def extractQuoted : List Char → Option (List Char)
  | [] => none
  | c :: rest =>
    if c = '"' then
      match scanClose rest with
      | some content => some content
      | none => extractQuoted rest
    else extractQuoted rest

/-- First-occurrence substring search: `splitFirst pat s = some (b, a)`
iff `pat` occurs in `s`, `b` is the text before the first occurrence and
`a` the text after it. -/
def splitFirst (pat : List Char) : List Char → Option (List Char × List Char)
  | [] => none
  | c :: rest =>
    if pat.isPrefixOf (c :: rest) then some ([], (c :: rest).drop pat.length)
    else
      match splitFirst pat rest with
      | none => none
      | some (b, a) => some (c :: b, a)

/-- Whether `pat` occurs as a contiguous substring of `s`. -/
def containsSub (pat s : List Char) : Bool := (splitFirst pat s).isSome

/-- The per-block part of `processAndDisplaySuggestions`: given the text
captured between the markers, mirror
`if (!match[1]) return;` (an empty capture is falsy in JavaScript) and then
`match[1].trim().split('\n').map(s => s.trim().match(/"(.*?)"/)).filter(Boolean).map(m => m[1])`. -/
def blockSuggestions (inner : List Char) : List (List Char) :=
  if inner = [] then []
  else (splitOnNl (trim inner)).filterMap (fun l => extractQuoted (trim l))

/-- The suggestion parser of `processAndDisplaySuggestions`
(src/index.tsx:206-222).  The non-global lazy regex
`/\[SUGGESTIONS\]([\s\S]*?)\[\/SUGGESTIONS\]/` matches iff some end marker
occurs after some start marker; because any such end marker also lies
after the *first* start marker, the match anchors at the first start
marker and captures up to the first end marker after it, which is the
composition of two first-occurrence searches. -/
def parseSuggestions (t : List Char) : List (List Char) :=
  match splitFirst startMarker t with
  | none => []
  | some (_, afterStart) =>
    match splitFirst endMarker afterStart with
    | none => []
    | some (inner, _) => blockSuggestions inner

/-- Fuelled worker for the global replace
`buf.replace(/\[SUGGESTIONS\][\s\S]*?\[\/SUGGESTIONS\]/g, '')`
(src/index.tsx:271): repeatedly locate the earliest closed
marker-to-marker span, delete it, and continue scanning strictly after the
deleted span.  A span whose start marker has no end marker after it is
left in place (the regex only matches fully closed spans).  Each step
removes at least the two markers, so `s.length` steps of fuel always
suffice. -/
def stripBlocksF : Nat → List Char → List Char
  | 0, s => s
  | n + 1, s =>
    match splitFirst startMarker s with
    | none => s
    | some (before, afterStart) =>
      match splitFirst endMarker afterStart with
      | none => s
      | some (_, afterEnd) => before ++ stripBlocksF n afterEnd

/-- The global marker-span strip performed on the stream buffer. -/
def stripBlocks (s : List Char) : List Char := stripBlocksF s.length s

/-- The per-delta display computation of the streaming loop
(src/index.tsx:271): strip every closed suggestion span, then trim. -/
def displayText (buf : List Char) : List Char := trim (stripBlocks buf)

/-- Who produced a message bubble. -/
inductive Sender where
  | user
  | bot
deriving DecidableEq, Repr

/-- One message bubble of the chat log: its sender and the content string
assigned to its inner element.  The markdown renderer is an opaque
presentation collaborator, modelled below as the identity, so `content`
is the text handed to the presentation layer. -/
structure Bubble where
  sender : Sender
  content : List Char
deriving DecidableEq, Repr

/-- The observable page state managed by src/index.tsx: the ordered
message log, the session handle (`chat`, `null` until `initializeApp`
succeeds), the disabled flags and spinner of the input controls, the at
most one suggestion-chip container in the document, and a count of
remote calls issued through `chat.sendMessageStream`. -/
structure AppState where
  messages : List Bubble
  chat : Option Unit
  inputDisabled : Bool
  sendDisabled : Bool
  spinnerShown : Bool
  suggestions : Option (List (List Char))
  networkCalls : Nat
deriving DecidableEq, Repr

/-- The page state before any script runs: empty log, no session, enabled
controls, no chips, no remote traffic. -/
def initialState : AppState :=
  { messages := [], chat := none, inputDisabled := false, sendDisabled := false,
    spinnerShown := false, suggestions := none, networkCalls := 0 }

/-- The outcome of one `chat.sendMessageStream` call as observed by the
consumer loop: either the stream ends normally after the listed text
deltas, or it fails with the given error message after the listed deltas
were already buffered. -/
inductive StreamResult where
  | ok (chunks : List (List Char))
  | err (chunks : List (List Char)) (message : List Char)

/-- The opaque markdown renderer (`marked.parse`), a presentation-boundary
collaborator whose output the core never inspects; modelled as the
identity on content. -/
def markedParse (s : List Char) : List Char := s

/-- Model of `appendMessage` (src/index.tsx:169-177): append a bubble to the log. -/
def appendMessage (s : AppState) (b : Bubble) : AppState :=
  { s with messages := s.messages ++ [b] }

/-- Model of `setLoading` (src/index.tsx:192-200): disable or re-enable the text
input and the send button, and swap the send icon for a spinner. -/
def setLoading (isLoading : Bool) (s : AppState) : AppState :=
  { s with inputDisabled := isLoading, sendDisabled := isLoading,
           spinnerShown := isLoading }

/-- Removal of an existing `.suggestions-container`
(src/index.tsx:259-262). -/
def removeSuggestionsContainer (s : AppState) : AppState :=
  { s with suggestions := none }

/-- Overwrite the content of the most recently appended bubble with `c`;
this models assignments to `botMessageEl.innerHTML`, since
`botMessageEl` is always the bubble appended last in the same turn. -/
def setLastContent (s : AppState) (c : List Char) : AppState :=
  { s with messages := s.messages.dropLast ++ [⟨Sender.bot, c⟩] }

/-- The state effect of `processAndDisplaySuggestions`
(src/index.tsx:206-242): parse the full response and, when the parsed
list is nonempty, append a container holding one chip per suggestion
(chip text = the suggestion string, empty or not); otherwise leave the
document unchanged. -/
def processAndDisplaySuggestions (fullResponse : List Char) (s : AppState) : AppState :=
  let sugg := parseSuggestions fullResponse
  if sugg.isEmpty then s else { s with suggestions := some sugg }

/-- Record that one remote call was issued (`chat.sendMessageStream`). -/
def recordRemoteCall (s : AppState) : AppState :=
  { s with networkCalls := s.networkCalls + 1 }

/-- The fixed retry message assembled in the catch branch
(src/index.tsx:282), with the underlying error text spliced in. -/
def errorRetryHtml (errorMessage : List Char) : List Char :=
  "Ocorreu um erro. Por favor, tente novamente.<br><br><code>".toList
    ++ errorMessage ++ "</code>".toList

/-- Model of `sendMessageAndStreamResponse` (src/index.tsx:248-287) as a state
transformer, parametrised by the stream outcome the remote provider
produces for this turn.  The guard `if (!userMessage || !chat) return;`
makes the call a no-op on an empty message or a missing session.
Otherwise: user bubble, loading on, empty bot bubble, old chip container
removed, remote call issued; on normal completion the bot bubble holds
the rendered stripped-and-trimmed buffer (it is written once per delta,
so it stays empty when no delta arrives) and the full buffer is handed to
`processAndDisplaySuggestions`; on failure the catch branch overwrites
the bot bubble with the retry message carrying the error text; the
finally branch re-enables the controls in both cases. -/
def sendMessageAndStreamResponse (userMessage : List Char) (stream : StreamResult)
    (s : AppState) : AppState :=
  if userMessage = [] then s
  else
    match s.chat with
    | none => s
    | some _ =>
      let s1 := appendMessage s ⟨Sender.user, userMessage⟩
      let s2 := setLoading true s1
      let s3 := appendMessage s2 ⟨Sender.bot, []⟩
      let s4 := removeSuggestionsContainer s3
      let s5 := recordRemoteCall s4
      match stream with
      | StreamResult.ok chunks =>
        let bufferedText := chunks.flatten
        let s6 :=
          if chunks.isEmpty then s5
          else setLastContent s5 (markedParse (displayText bufferedText))
        setLoading false (processAndDisplaySuggestions bufferedText s6)
      | StreamResult.err _ errorMessage =>
        setLoading false (setLastContent s5 (errorRetryHtml errorMessage))

/-- The greeting shown by `displayInitialGreeting` (src/index.tsx:326-330). -/
def greetingText : List Char :=
  "Olá! Sou o NeoOtto, o seu consultor de IA. Em que posso ajudar a sua empresa hoje? Por exemplo, pode perguntar-me sobre como otimizar a logística na sua PME.".toList

/-- The fixed configuration-error bubble content written by the catch
branch of `initializeApp` (src/index.tsx:349-350). -/
def configErrorHtml : List Char :=
  "<strong>Erro de Configuração:</strong> A chave da API (API_KEY) não foi encontrada. Esta aplicação requer que a chave seja configurada no ambiente de hospedagem. Sem ela, o assistente não pode funcionar.".toList

/-- Model of `initializeApp` (src/index.tsx:333-357): when the environment
credential is present (and nonempty, since `if (!API_KEY)` also fires on
the empty string) a session is created and the greeting is shown;
otherwise the thrown error is caught locally, one configuration-error
bubble is appended, and both input controls are disabled permanently.
No remote call is issued either way (session creation is local). -/
def initializeApp (apiKey : Option (List Char)) (s : AppState) : AppState :=
  match apiKey with
  | some k =>
    if k = [] then
      { appendMessage s ⟨Sender.bot, configErrorHtml⟩ with
          inputDisabled := true, sendDisabled := true }
    else
      appendMessage { s with chat := some () } ⟨Sender.bot, markedParse greetingText⟩
  | none =>
    { appendMessage s ⟨Sender.bot, configErrorHtml⟩ with
        inputDisabled := true, sendDisabled := true }

/-- The state reached on a page load with a usable credential. -/
def readyState : AppState := initializeApp (some "k".toList) initialState

/-- The state reached on a page load with the credential absent. -/
def disabledState : AppState := initializeApp none initialState

/-- The stream accumulator of the consumer loop in one assistant turn:
`bufferedText` together with its two operations, appending a delta and
computing the display-safe text.  `display` is a pure function of the
buffer and leaves the accumulator untouched, mirroring that the
JavaScript `replace`/`trim` chain allocates new strings and never
mutates `bufferedText`. -/
structure StreamAcc where
  buf : List Char
deriving DecidableEq, Repr

/-- Model of `bufferedText += chunk.text` (src/index.tsx:269). -/
def StreamAcc.append (a : StreamAcc) (delta : List Char) : StreamAcc :=
  ⟨a.buf ++ delta⟩

/-- The per-delta display computation together with the (unchanged)
accumulator it leaves behind (src/index.tsx:271). -/
def StreamAcc.display (a : StreamAcc) : List Char × StreamAcc :=
  (displayText a.buf, a)

/-- A pattern has no self-overlap when no proper nonempty suffix of it is
also one of its prefixes.  Both markers satisfy this (their first
character `[` occurs nowhere else in them), which is what rules out a
marker occurrence straddling the boundary between a marker-free text and
a literal marker appended after it. -/
def noSelfOverlap (pat : List Char) : Prop :=
  ∀ d, d < pat.length → 0 < d → pat.drop d ≠ pat.take (pat.length - d)

/-- Whether the buffer holds no complete marker pair: either there is no
start marker at all, or no end marker occurs after the first start marker
(in which case no start marker is followed by an end marker, so the lazy
regex fails everywhere). -/
def noCompleteBlock (t : List Char) : Bool :=
  match splitFirst startMarker t with
  | none => true
  | some (_, afterStart) => !(containsSub endMarker afterStart)

/-- The mid-stream buffer of the spec scenario for the streaming display:
the greeting, the start marker and one quoted line have arrived, the end
marker has not. -/
def c2buffer : List Char := "Olá!\n[SUGGESTIONS]\n\"Pergunta 1?\"".toList

/-- A complete assistant turn whose suggestion block contains a line that
is just the two characters of an empty quoted string. -/
def emptyQuoteTurn : List Char :=
  "Base pronta.\n[SUGGESTIONS]\n\"\"\n\"Quais dados?\"\n[/SUGGESTIONS]".toList

/-- A text containing a sequence of closed suggestion blocks followed by
a tail: each list entry pairs the outside text before one block with that
block's inner content, and `tail` is everything after the last closed
block (it may itself still hold stray markers, e.g. a trailing unclosed
start marker). -/
def mkBlocksText : List (List Char × List Char) → List Char → List Char
  | [], tail => tail
  | (a, b) :: rest, tail =>
    a ++ (startMarker ++ (b ++ (endMarker ++ mkBlocksText rest tail)))

/-- Soundness of the first-occurrence search: a successful split
decomposes the string around the pattern. -/
theorem splitFirst_sound {pat : List Char} :
    ∀ {s b a : List Char}, splitFirst pat s = some (b, a) → s = b ++ (pat ++ a) := by
  intro s
  induction s with
  | nil => intro b a h; simp [splitFirst] at h
  | cons c rest ih =>
    intro b a h
    simp only [splitFirst] at h
    by_cases hp : pat.isPrefixOf (c :: rest)
    · rw [if_pos hp] at h
      injection h with h2
      have hb : b = [] := (congrArg Prod.fst h2).symm
      have ha : a = (c :: rest).drop pat.length := (congrArg Prod.snd h2).symm
      subst hb; subst ha
      rw [ List.isPrefixOf_iff_prefix] at hp
      obtain ⟨t, ht⟩ := hp
      rw [List.nil_append, ← ht, List.drop_left]
    · rw [if_neg hp] at h
      cases hsf : splitFirst pat rest with
      | none => rw [hsf] at h; simp at h
      | some p =>
        obtain ⟨b1, a1⟩ := p
        rw [hsf] at h
        injection h with h2
        have hb : b = c :: b1 := (congrArg Prod.fst h2).symm
        have ha : a = a1 := (congrArg Prod.snd h2).symm
        subst hb; subst ha
        rw [ih hsf]
        rfl

/-- Unfolding equation of `splitFirst` on a nonempty string. -/
theorem splitFirst_cons (pat : List Char) (c : Char) (rest : List Char) :
    splitFirst pat (c :: rest) =
      if pat.isPrefixOf (c :: rest) then some ([], (c :: rest).drop pat.length)
      else
        match splitFirst pat rest with
        | none => none
        | some (b, a) => some (c :: b, a) := rfl

/-- Completeness of the first-occurrence search: any explicit occurrence
of the pattern makes the search succeed. -/
theorem containsSub_append :
    ∀ (u : List Char) {pat v : List Char}, u ++ (pat ++ v) ≠ [] →
      containsSub pat (u ++ (pat ++ v)) = true := by
  intro u
  induction u with
  | nil =>
    intro pat v hne
    rw [List.nil_append] at hne ⊢
    cases hpv : pat ++ v with
    | nil => exact absurd hpv hne
    | cons c rest =>
      have hp : pat.isPrefixOf (c :: rest) := by
        rw [ List.isPrefixOf_iff_prefix, ← hpv]
        exact ⟨v, rfl⟩
      show (splitFirst pat (c :: rest)).isSome = true
      rw [splitFirst_cons, if_pos hp]
      rfl
  | cons x u2 ih =>
    intro pat v hne
    show (splitFirst pat (x :: (u2 ++ (pat ++ v)))).isSome = true
    rw [splitFirst_cons]
    by_cases hp : pat.isPrefixOf (x :: (u2 ++ (pat ++ v)))
    · rw [if_pos hp]
      rfl
    · rw [if_neg hp]
      have hne2 : u2 ++ (pat ++ v) ≠ [] := by
        intro h0
        have hpn : pat = [] := (List.append_eq_nil.mp ((List.append_eq_nil.mp h0).2)).1
        apply hp
        rw [hpn]
        rfl
      have h2 := ih hne2
      unfold containsSub at h2
      cases hsf : splitFirst pat (u2 ++ (pat ++ v)) with
      | none => rw [hsf] at h2; simp at h2
      | some p =>
        obtain ⟨b, a⟩ := p
        rfl

/-- Occurring in a string is preserved by prepending a character. -/
theorem containsSub_cons {pat b : List Char} (c : Char)
    (h : containsSub pat b = true) : containsSub pat (c :: b) = true := by
  show (splitFirst pat (c :: b)).isSome = true
  rw [splitFirst_cons]
  by_cases hp : pat.isPrefixOf (c :: b)
  · rw [if_pos hp]
    rfl
  · rw [if_neg hp]
    unfold containsSub at h
    cases hsf : splitFirst pat b with
    | none => rw [hsf] at h; simp at h
    | some p =>
      obtain ⟨x, y⟩ := p
      rfl

/-- A pattern with no self-overlap that does not occur in `b` is not a
prefix of `b ++ (pat ++ r)` when `b` is nonempty: the occurrence would
have to straddle the end of `b`, forcing a proper suffix of the pattern
to be one of its prefixes. -/
theorem not_isPrefixOf_mid {pat b r : List Char} (hno : noSelfOverlap pat)
    (hb : b ≠ []) (hsub : containsSub pat b = false) :
    ¬ pat.isPrefixOf (b ++ (pat ++ r)) := by
  intro h
  rw [ List.isPrefixOf_iff_prefix] at h
  obtain ⟨t, ht⟩ := h
  by_cases hlen : pat.length ≤ b.length
  · have h2 : (b ++ (pat ++ r)).take pat.length = b.take pat.length :=
      List.take_append_of_le_length hlen
    have hpb : pat = b.take pat.length := by
      rw [← h2, ← ht]
      exact (List.take_left pat t).symm
    have hb2 : b = pat ++ b.drop pat.length := by
      conv_lhs => rw [← List.take_append_drop pat.length b]
      rw [← hpb]
    have hbne : ([] : List Char) ++ (pat ++ b.drop pat.length) ≠ [] := by
      rw [List.nil_append, ← hb2]
      exact hb
    have hc := containsSub_append [] hbne
    rw [List.nil_append, ← hb2] at hc
    rw [hc] at hsub
    exact absurd hsub (by simp)
  · push_neg at hlen
    have hd0 : 0 < b.length := List.length_pos.mpr hb
    have h1 : (pat ++ t).drop b.length = pat.drop b.length ++ t :=
      List.drop_append_of_le_length (Nat.le_of_lt hlen)
    have h2 : (b ++ (pat ++ r)).drop b.length = pat ++ r := List.drop_left b (pat ++ r)
    have h3 : pat.drop b.length ++ t = pat ++ r := by rw [← h1, ht, h2]
    have hlen2 : (pat.drop b.length).length = pat.length - b.length :=
      List.length_drop b.length pat
    have h4 : (pat.drop b.length ++ t).take (pat.length - b.length) = pat.drop b.length :=
      List.take_left' hlen2
    have h5 : (pat ++ r).take (pat.length - b.length) = pat.take (pat.length - b.length) :=
      List.take_append_of_le_length (Nat.sub_le pat.length b.length)
    have h6 : pat.drop b.length = pat.take (pat.length - b.length) := by
      rw [← h4, h3, h5]
    exact hno b.length hlen hd0 h6

/-- The start marker has no self-overlap. -/
theorem noSelfOverlap_startMarker : noSelfOverlap startMarker := by
  unfold noSelfOverlap
  decide

/-- The end marker has no self-overlap. -/
theorem noSelfOverlap_endMarker : noSelfOverlap endMarker := by
  unfold noSelfOverlap
  decide

/-- Placement of the first occurrence: for a self-overlap-free nonempty
pattern, searching `b ++ (pat ++ r)` with `pat` absent from `b` finds the
literal occurrence, splitting off exactly `b` and `r`. -/
theorem splitFirst_marker {pat : List Char} (hno : noSelfOverlap pat) (hpat : pat ≠ []) :
    ∀ (b r : List Char), containsSub pat b = false →
      splitFirst pat (b ++ (pat ++ r)) = some (b, r) := by
  intro b
  induction b with
  | nil =>
    intro r _
    obtain ⟨p, pt, hpd⟩ : ∃ p pt, pat = p :: pt := by
      cases hc : pat with
      | nil => exact absurd hc hpat
      | cons p pt => exact ⟨p, pt, rfl⟩
    subst hpd
    rw [List.nil_append]
    have hsh : (p :: pt) ++ r = p :: (pt ++ r) := rfl
    have hp : (p :: pt).isPrefixOf (p :: (pt ++ r)) := by
      rw [ List.isPrefixOf_iff_prefix, ← hsh]
      exact ⟨r, rfl⟩
    rw [hsh, splitFirst_cons, if_pos hp, ← hsh, List.drop_left]
  | cons x b2 ih =>
    intro r hsub
    have hsub2 : containsSub pat b2 = false := by
      cases hcb : containsSub pat b2 with
      | false => rfl
      | true =>
        have hx := containsSub_cons x hcb
        rw [hx] at hsub
        exact absurd hsub (by simp)
    have hnp : ¬ pat.isPrefixOf ((x :: b2) ++ (pat ++ r)) :=
      not_isPrefixOf_mid hno (by simp) hsub
    rw [List.cons_append] at hnp
    rw [List.cons_append, splitFirst_cons, if_neg hnp, ih r hsub2]

/-- Deleting one closed span strictly shortens the string, because the
two markers themselves disappear. -/
theorem strip_rest_lt {s b a i rest : List Char}
    (h1 : splitFirst startMarker s = some (b, a))
    (h2 : splitFirst endMarker a = some (i, rest)) :
    rest.length < s.length := by
  have e1 := splitFirst_sound h1
  have e2 := splitFirst_sound h2
  have h13 : startMarker.length = 13 := by decide
  have h14 : endMarker.length = 14 := by decide
  rw [e2] at e1
  rw [e1]
  simp only [List.length_append, h13, h14]
  omega

/-- The fuelled strip is independent of the fuel once the fuel covers the
string length. -/
theorem stripBlocksF_fuel :
    ∀ (n : Nat) (s : List Char) (m : Nat), s.length ≤ n → s.length ≤ m →
      stripBlocksF n s = stripBlocksF m s := by
  intro n
  induction n with
  | zero =>
    intro s m hn _
    have hs : s = [] := List.eq_nil_of_length_eq_zero (Nat.le_zero.mp hn)
    subst hs
    cases m with
    | zero => rfl
    | succ k => rfl
  | succ n ih =>
    intro s m hn hm
    cases h1 : splitFirst startMarker s with
    | none =>
      cases m with
      | zero =>
        have hs : s = [] := List.eq_nil_of_length_eq_zero (Nat.le_zero.mp hm)
        subst hs
        rfl
      | succ k => simp only [stripBlocksF, h1]
    | some p =>
      obtain ⟨b, a⟩ := p
      cases h2 : splitFirst endMarker a with
      | none =>
        cases m with
        | zero =>
          have hs : s = [] := List.eq_nil_of_length_eq_zero (Nat.le_zero.mp hm)
          subst hs
          simp [splitFirst] at h1
        | succ k => simp only [stripBlocksF, h1, h2]
      | some q =>
        obtain ⟨i, rest⟩ := q
        have hlt := strip_rest_lt h1 h2
        cases m with
        | zero =>
          have hs : s = [] := List.eq_nil_of_length_eq_zero (Nat.le_zero.mp hm)
          subst hs
          simp [splitFirst] at h1
        | succ k =>
          simp only [stripBlocksF, h1, h2]
          have e := ih rest k (by omega) (by omega)
          rw [e]

/-- Characterization of `stripBlocks` when there is no start marker: the
string is returned unchanged. -/
theorem stripBlocks_eq_of_no_start {s : List Char}
    (h1 : splitFirst startMarker s = none) : stripBlocks s = s := by
  unfold stripBlocks
  cases hsl : s.length with
  | zero => rfl
  | succ m => simp only [stripBlocksF, h1]

/-- Characterization of `stripBlocks` when the first start marker is
never closed: the string is returned unchanged (the lazy regex matches no
partial span). -/
theorem stripBlocks_eq_of_no_end {s b a : List Char}
    (h1 : splitFirst startMarker s = some (b, a))
    (h2 : splitFirst endMarker a = none) : stripBlocks s = s := by
  unfold stripBlocks
  cases hsl : s.length with
  | zero =>
    have hs : s = [] := List.eq_nil_of_length_eq_zero hsl
    subst hs
    rfl
  | succ m => simp only [stripBlocksF, h1, h2]

/-- Characterization of `stripBlocks` on a closed span: the span is
deleted and stripping continues on the text after its end marker only. -/
theorem stripBlocks_step {s b a i rest : List Char}
    (h1 : splitFirst startMarker s = some (b, a))
    (h2 : splitFirst endMarker a = some (i, rest)) :
    stripBlocks s = b ++ stripBlocks rest := by
  have hlt := strip_rest_lt h1 h2
  obtain ⟨m, hm⟩ : ∃ m, s.length = m + 1 := ⟨s.length - 1, by omega⟩
  unfold stripBlocks
  rw [hm]
  simp only [stripBlocksF, h1, h2]
  rw [stripBlocksF_fuel m rest rest.length (by omega) (Nat.le_refl rest.length)]

/-- If a map under `f` yields all-`some` values, then `filterMap f` drops
nothing and returns exactly those values. -/
theorem filterMap_eq_of_map_some {α β : Type} (f : α → Option β) :
    ∀ (l : List α) (qs : List β), l.map f = qs.map some → l.filterMap f = qs := by
  intro l
  induction l with
  | nil =>
    intro qs h
    cases qs with
    | nil => rfl
    | cons q qt => simp at h
  | cons x xs ih =>
    intro qs h
    cases qs with
    | nil => simp at h
    | cons q qt =>
      simp only [List.map_cons, List.cons.injEq] at h
      obtain ⟨hx, ht⟩ := h
      simp [List.filterMap_cons, hx, ih qt ht]

/-- The parser reads only the first block: whatever follows the first end
marker after the first start marker is ignored. -/
theorem parseSuggestions_first_block (A B R : List Char)
    (hA : containsSub startMarker A = false)
    (hB : containsSub endMarker B = false) :
    parseSuggestions (A ++ (startMarker ++ (B ++ (endMarker ++ R)))) = blockSuggestions B := by
  have h1 : splitFirst startMarker (A ++ (startMarker ++ (B ++ (endMarker ++ R))))
      = some (A, B ++ (endMarker ++ R)) :=
    splitFirst_marker noSelfOverlap_startMarker (by decide) A (B ++ (endMarker ++ R)) hA
  have h2 : splitFirst endMarker (B ++ (endMarker ++ R)) = some (B, R) :=
    splitFirst_marker noSelfOverlap_endMarker (by decide) B R hB
  unfold parseSuggestions
  simp only [h1, h2]

/-- On a buffer with no complete marker pair the strip pass is the
identity. -/
theorem stripBlocks_of_noCompleteBlock {t : List Char}
    (h : noCompleteBlock t = true) : stripBlocks t = t := by
  unfold noCompleteBlock at h
  cases h1 : splitFirst startMarker t with
  | none => exact stripBlocks_eq_of_no_start h1
  | some p =>
    obtain ⟨b, a⟩ := p
    rw [h1] at h
    have h3 : (!(containsSub endMarker a)) = true := h
    have h4 : containsSub endMarker a = false := by
      cases hca : containsSub endMarker a with
      | false => rfl
      | true => rw [hca] at h3; exact absurd h3 (by decide)
    have h5 : splitFirst endMarker a = none := by
      unfold containsSub at h4
      cases hsf : splitFirst endMarker a with
      | none => rfl
      | some q => rw [hsf] at h4; simp at h4
    exact stripBlocks_eq_of_no_end h1 h5

/-- The strip pass deletes every closed block of a block sequence, of any
length, and keeps exactly the outside texts and the tail, in order. -/
theorem stripBlocks_mkBlocksText :
    ∀ (blocks : List (List Char × List Char)) (tail : List Char),
      (∀ p ∈ blocks,
        containsSub startMarker p.1 = false ∧ containsSub endMarker p.2 = false) →
      noCompleteBlock tail = true →
      stripBlocks (mkBlocksText blocks tail) = (blocks.map Prod.fst).flatten ++ tail := by
  intro blocks
  induction blocks with
  | nil =>
    intro tail _ ht
    simp only [mkBlocksText, List.map_nil, List.flatten_nil, List.nil_append]
    exact stripBlocks_of_noCompleteBlock ht
  | cons p rest ih =>
    intro tail hb ht
    obtain ⟨a, b⟩ := p
    have ha : containsSub startMarker a = false := (hb (a, b) (by simp)).1
    have hbe : containsSub endMarker b = false := (hb (a, b) (by simp)).2
    have hrest : ∀ q ∈ rest,
        containsSub startMarker q.1 = false ∧ containsSub endMarker q.2 = false := by
      intro q hq
      exact hb q (by simp [hq])
    have h1 : splitFirst startMarker (mkBlocksText ((a, b) :: rest) tail)
        = some (a, b ++ (endMarker ++ mkBlocksText rest tail)) := by
      show splitFirst startMarker
          (a ++ (startMarker ++ (b ++ (endMarker ++ mkBlocksText rest tail))))
        = some (a, b ++ (endMarker ++ mkBlocksText rest tail))
      exact splitFirst_marker noSelfOverlap_startMarker (by decide) a
        (b ++ (endMarker ++ mkBlocksText rest tail)) ha
    have h2 : splitFirst endMarker (b ++ (endMarker ++ mkBlocksText rest tail))
        = some (b, mkBlocksText rest tail) :=
      splitFirst_marker noSelfOverlap_endMarker (by decide) b (mkBlocksText rest tail) hbe
    rw [stripBlocks_step h1 h2, ih tail hrest ht]
    simp [List.append_assoc]

/-- Claim C1: for every complete assistant turn of the form
`P ++ "[SUGGESTIONS]" ++ B ++ "[/SUGGESTIONS]" ++ S` in which the start
marker does not already occur in `P`, the end marker does not occur in
`B`, and every line of the block carries a double-quoted string (the
hypothesis `hq` states that quote extraction succeeds on every line of
the trimmed block, naming the extracted contents `qs`), the parser
returns exactly the quoted contents, one per line, in line order —
without deduplicating and without capping the count at three or anything
else, since the output is exactly `qs` and its length is exactly the
number of lines. -/
theorem parser_returns_all_quoted_lines
    (P B S : List Char) (qs : List (List Char))
    (hP : containsSub startMarker P = false)
    (hB : containsSub endMarker B = false)
    (hq : (splitOnNl (trim B)).map (fun l => extractQuoted (trim l)) = qs.map some) :
    parseSuggestions (P ++ startMarker ++ B ++ endMarker ++ S) = qs
      ∧ qs.length = (splitOnNl (trim B)).length := by
  have h1 : splitFirst startMarker (P ++ (startMarker ++ (B ++ (endMarker ++ S))))
      = some (P, B ++ (endMarker ++ S)) :=
    splitFirst_marker noSelfOverlap_startMarker (by decide) P (B ++ (endMarker ++ S)) hP
  have h2 : splitFirst endMarker (B ++ (endMarker ++ S)) = some (B, S) :=
    splitFirst_marker noSelfOverlap_endMarker (by decide) B S hB
  have hass : P ++ startMarker ++ B ++ endMarker ++ S
      = P ++ (startMarker ++ (B ++ (endMarker ++ S))) := by
    simp [List.append_assoc]
  constructor
  · rw [hass]
    unfold parseSuggestions
    simp only [h1, h2]
    unfold blockSuggestions
    by_cases hBnil : B = []
    · exfalso
      subst hBnil
      have hcomp : (splitOnNl (trim ([] : List Char))).map (fun l => extractQuoted (trim l))
          = [none] := by decide
      rw [hcomp] at hq
      cases qs with
      | nil => simp at hq
      | cons q qt => simp at hq
    · rw [if_neg hBnil]
      exact filterMap_eq_of_map_some (fun l => extractQuoted (trim l)) (splitOnNl (trim B)) qs hq
  · have hl := congrArg List.length hq
    simp only [List.length_map] at hl
    exact hl.symm

/-- Witness for C1 at a concrete turn whose block has four quoted lines,
one of them a duplicate: the parser returns all four, in order, keeping
the duplicate — it neither deduplicates nor enforces the count of three. -/
theorem parser_returns_all_quoted_lines_witness :
    parseSuggestions ("Diagnóstico pronto.\n".toList ++ startMarker
        ++ "\n\"Como começar?\"\n\"Que dados?\"\n\"Como começar?\"\n\"Qual o custo?\"\n".toList
        ++ endMarker ++ "\nfim".toList)
      = ["Como começar?".toList, "Que dados?".toList,
         "Como começar?".toList, "Qual o custo?".toList]
    ∧ (["Como começar?".toList, "Que dados?".toList,
        "Como começar?".toList, "Qual o custo?".toList] : List (List Char)).length
      = (splitOnNl (trim "\n\"Como começar?\"\n\"Que dados?\"\n\"Como começar?\"\n\"Qual o custo?\"\n".toList)).length :=
  parser_returns_all_quoted_lines
    "Diagnóstico pronto.\n".toList
    "\n\"Como começar?\"\n\"Que dados?\"\n\"Como começar?\"\n\"Qual o custo?\"\n".toList
    "\nfim".toList
    ["Como começar?".toList, "Que dados?".toList,
     "Como começar?".toList, "Qual o custo?".toList]
    (by decide) (by decide) (by decide)

/-- Claim C2 (counterexample): on the mid-stream buffer of the scenario —
greeting, start marker and one quoted line received, end marker not yet —
the per-delta display computation does not return `"Olá!"`: the global
replace only deletes fully closed marker spans, so the unclosed block is
left in place. -/
theorem partial_marker_shown_cex : displayText c2buffer ≠ "Olá!".toList := by decide

/-- Claim C2 (amended): on that mid-stream buffer `displayText` returns
the whole buffer trimmed — the raw partial marker text `[SUGGESTIONS]`
and the quoted line are included in the display output until the end
marker arrives. -/
theorem partial_marker_retained :
    displayText c2buffer = "Olá!\n[SUGGESTIONS]\n\"Pergunta 1?\"".toList := by decide

/-- Claim C3: on any assistant-turn text containing two or more
well-formed blocks — a leading outside text `a0` and first block inner
`b0`, then at least one further block (`rest` pairs each later block's
preceding outside text with its inner content), then an arbitrary tail
containing no further closed block (it may even end in an unclosed start
marker) — at most one block is honored: the parser returns only the
suggestions of the first (earliest) block, and the display computation
deletes every closed block, so no block's inner content is displayed
while exactly the text outside the markers (plus the tail) is kept. -/
theorem first_block_honored_all_blocks_stripped
    (a0 b0 : List Char) (rest : List (List Char × List Char)) (tail : List Char)
    (hmore : rest ≠ [])
    (ha0 : containsSub startMarker a0 = false)
    (hb0 : containsSub endMarker b0 = false)
    (hrest : ∀ p ∈ rest,
      containsSub startMarker p.1 = false ∧ containsSub endMarker p.2 = false)
    (htail : noCompleteBlock tail = true) :
    parseSuggestions (mkBlocksText ((a0, b0) :: rest) tail) = blockSuggestions b0
    ∧ displayText (mkBlocksText ((a0, b0) :: rest) tail)
        = trim ((((a0, b0) :: rest).map Prod.fst).flatten ++ tail) := by
  constructor
  · show parseSuggestions
        (a0 ++ (startMarker ++ (b0 ++ (endMarker ++ mkBlocksText rest tail))))
      = blockSuggestions b0
    exact parseSuggestions_first_block a0 b0 (mkBlocksText rest tail) ha0 hb0
  · unfold displayText
    rw [stripBlocks_mkBlocksText ((a0, b0) :: rest) tail
      (by
        intro p hp
        rcases List.mem_cons.mp hp with h | h
        · subst h
          exact ⟨ha0, hb0⟩
        · exact hrest p h)
      htail]

/-- Witness for C3 at a concrete turn with three well-formed blocks and a
trailing unclosed start marker: only the first block's suggestions are
returned, and all three blocks are stripped from the display. -/
theorem first_block_honored_all_blocks_stripped_witness :
    parseSuggestions (mkBlocksText
        [("Olá. ".toList, "\n\"Q1?\"\n".toList),
         (" meio ".toList, "\n\"Q2?\"\n".toList),
         (" mais ".toList, "\n\"Q3?\"\n".toList)]
        " fim [SUGGESTIONS] aberto".toList)
      = blockSuggestions "\n\"Q1?\"\n".toList
    ∧ displayText (mkBlocksText
        [("Olá. ".toList, "\n\"Q1?\"\n".toList),
         (" meio ".toList, "\n\"Q2?\"\n".toList),
         (" mais ".toList, "\n\"Q3?\"\n".toList)]
        " fim [SUGGESTIONS] aberto".toList)
      = trim ((([("Olá. ".toList, "\n\"Q1?\"\n".toList),
                 (" meio ".toList, "\n\"Q2?\"\n".toList),
                 (" mais ".toList, "\n\"Q3?\"\n".toList)]).map Prod.fst).flatten
          ++ " fim [SUGGESTIONS] aberto".toList) :=
  first_block_honored_all_blocks_stripped
    "Olá. ".toList "\n\"Q1?\"\n".toList
    [(" meio ".toList, "\n\"Q2?\"\n".toList), (" mais ".toList, "\n\"Q3?\"\n".toList)]
    " fim [SUGGESTIONS] aberto".toList
    (by decide) (by decide) (by decide) (by decide) (by decide)

/-- Claim C4: with the credential absent at startup, initialization ends
in the terminal disabled state — both input controls disabled, exactly
one configuration-error bubble in the log, no session handle, no network
call issued — and every subsequent send attempt, whatever stream the
provider would have produced, leaves the state fully unchanged, so no
retry is possible and no network call is ever attempted. -/
theorem missing_credential_disables_app :
    disabledState.inputDisabled = true
    ∧ disabledState.sendDisabled = true
    ∧ disabledState.messages = [⟨Sender.bot, configErrorHtml⟩]
    ∧ disabledState.chat = none
    ∧ disabledState.networkCalls = 0
    ∧ ∀ (msg : List Char) (stream : StreamResult),
        sendMessageAndStreamResponse msg stream disabledState = disabledState := by
  refine ⟨rfl, rfl, rfl, rfl, rfl, ?_⟩
  intro msg stream
  unfold sendMessageAndStreamResponse
  by_cases h : msg = []
  · rw [if_pos h]
  · rw [if_neg h]
    rfl

/-- Claim C5: when a send with a nonempty message on an initialized
session meets a stream that fails mid-way (after any list of deltas was
already buffered), the turn still produces a well-defined state — the
model of the catch/finally boundary — in which the bot bubble holds the
fixed retry message with the underlying error text spliced in (and not
the partial buffer, whose content appears nowhere in the result), the
error text occurs inside that bubble, and both input controls are
re-enabled. -/
theorem stream_failure_shows_retry_and_reenables
    (s : AppState) (msg : List Char) (chunks : List (List Char)) (emsg : List Char)
    (hm : msg ≠ []) (hc : s.chat = some ()) :
    sendMessageAndStreamResponse msg (StreamResult.err chunks emsg) s
      = { s with
          messages := s.messages
            ++ [⟨Sender.user, msg⟩, ⟨Sender.bot, errorRetryHtml emsg⟩],
          suggestions := none,
          inputDisabled := false, sendDisabled := false, spinnerShown := false,
          networkCalls := s.networkCalls + 1 }
    ∧ containsSub emsg (errorRetryHtml emsg) = true := by
  constructor
  · unfold sendMessageAndStreamResponse
    rw [if_neg hm]
    cases hcc : s.chat with
    | none => rw [hcc] at hc; exact Option.noConfusion hc
    | some u =>
      simp only [appendMessage, setLoading, removeSuggestionsContainer, recordRemoteCall,
                 setLastContent, List.append_assoc, List.dropLast_concat]
      simp [List.append_assoc, hcc]
  · unfold errorRetryHtml
    have hne : "Ocorreu um erro. Por favor, tente novamente.<br><br><code>".toList
        ++ (emsg ++ "</code>".toList) ≠ [] := by simp
    have hc2 := containsSub_append
      "Ocorreu um erro. Por favor, tente novamente.<br><br><code>".toList hne
    rw [← List.append_assoc] at hc2
    exact hc2

/-- Witness for C5: the spec scenario — the stream fails after buffering
`"Partial answer"` — at a ready state. -/
theorem stream_failure_shows_retry_and_reenables_witness :
    sendMessageAndStreamResponse "Oi".toList
        (StreamResult.err ["Partial answer".toList] "network down".toList) readyState
      = { readyState with
          messages := readyState.messages
            ++ [⟨Sender.user, "Oi".toList⟩,
                ⟨Sender.bot, errorRetryHtml "network down".toList⟩],
          suggestions := none,
          inputDisabled := false, sendDisabled := false, spinnerShown := false,
          networkCalls := readyState.networkCalls + 1 }
    ∧ containsSub "network down".toList (errorRetryHtml "network down".toList) = true :=
  stream_failure_shows_retry_and_reenables readyState "Oi".toList
    ["Partial answer".toList] "network down".toList (by decide) (by decide)

/-- Claim C6: whenever the start marker is absent, or no end marker
occurs after the first start marker (which covers both an absent end
marker and reversed markers), the parser returns the empty sequence; in
the embedding this is an ordinary return value of the total function, not
an error. -/
theorem no_wellformed_block_yields_empty (t : List Char)
    (h : noCompleteBlock t = true) : parseSuggestions t = [] := by
  unfold noCompleteBlock at h
  cases h1 : splitFirst startMarker t with
  | none =>
    unfold parseSuggestions
    rw [h1]
  | some p =>
    obtain ⟨b, a⟩ := p
    rw [h1] at h
    have h3 : (!(containsSub endMarker a)) = true := h
    have h4 : containsSub endMarker a = false := by
      cases hca : containsSub endMarker a with
      | false => rfl
      | true => rw [hca] at h3; exact absurd h3 (by decide)
    have h5 : splitFirst endMarker a = none := by
      unfold containsSub at h4
      cases hsf : splitFirst endMarker a with
      | none => rfl
      | some q => rw [hsf] at h4; simp at h4
    unfold parseSuggestions
    simp only [h1, h5]

/-- Witness for C6 on reversed markers: the end marker precedes the only
start marker, so the parser yields the empty sequence. -/
theorem no_wellformed_block_yields_empty_witness :
    parseSuggestions "[/SUGGESTIONS] sem bloco [SUGGESTIONS]".toList = [] :=
  no_wellformed_block_yields_empty "[/SUGGESTIONS] sem bloco [SUGGESTIONS]".toList (by decide)

/-- Claim C7: on any buffer containing no complete marker pair, the
display computation returns exactly the buffer trimmed of surrounding
whitespace, with the content otherwise unchanged (the strip pass is the
identity on such a buffer). -/
theorem displayText_no_block_is_trim (buf : List Char)
    (h : noCompleteBlock buf = true) :
    displayText buf = trim buf ∧ stripBlocks buf = buf := by
  have hs : stripBlocks buf = buf := stripBlocks_of_noCompleteBlock h
  constructor
  · unfold displayText
    rw [hs]
  · exact hs

/-- Witness for C7 on a buffer holding an unclosed start marker and
surrounding whitespace. -/
theorem displayText_no_block_is_trim_witness :
    displayText "  A resposta continua [SUGGESTIONS]\n\"Pergunta\" ".toList
        = trim "  A resposta continua [SUGGESTIONS]\n\"Pergunta\" ".toList
    ∧ stripBlocks "  A resposta continua [SUGGESTIONS]\n\"Pergunta\" ".toList
        = "  A resposta continua [SUGGESTIONS]\n\"Pergunta\" ".toList :=
  displayText_no_block_is_trim "  A resposta continua [SUGGESTIONS]\n\"Pergunta\" ".toList
    (by decide)

/-- Claim C8: the display computation is deterministic over a fixed
buffer — two consecutive `display` calls with no intervening append
return identical strings, because `display` is a pure function of the
buffer and leaves the accumulator unchanged (the JavaScript
`replace`/`trim` chain allocates fresh strings and never mutates
`bufferedText`). -/
theorem display_is_deterministic (a : StreamAcc) :
    (a.display).1 = ((a.display).2.display).1 ∧ (a.display).2 = a :=
  ⟨rfl, rfl⟩

/-- Claim C9 (implicit): a block line consisting of the two characters of
an empty quoted string is not dropped — the parser includes an
empty-string suggestion for it, in position, and the send path then
records a chip container whose first chip text is the empty string. -/
theorem empty_quoted_suggestion_kept :
    parseSuggestions emptyQuoteTurn = [[], "Quais dados?".toList]
    ∧ (sendMessageAndStreamResponse "Oi".toList
          (StreamResult.ok [emptyQuoteTurn]) readyState).suggestions
        = some [[], "Quais dados?".toList] := by
  exact ⟨by decide, by decide⟩

/-- Claim C10 (implicit): a send with an empty message, or issued while
no session exists (in particular after a configuration failure), is a
complete no-op — the state, including the message log, the loading
flags, the chip container and the network-call count, is returned
unchanged. -/
theorem send_is_noop_without_message_or_session
    (msg : List Char) (stream : StreamResult) (s : AppState)
    (h : msg = [] ∨ s.chat = none) :
    sendMessageAndStreamResponse msg stream s = s := by
  unfold sendMessageAndStreamResponse
  rcases h with h | h
  · rw [if_pos h]
  · by_cases hm : msg = []
    · rw [if_pos hm]
    · rw [if_neg hm, h]

/-- Witness for C10: an empty message on a ready state is a no-op. -/
theorem send_is_noop_without_message_or_session_witness :
    sendMessageAndStreamResponse [] (StreamResult.ok ["x".toList]) readyState = readyState :=
  send_is_noop_without_message_or_session [] (StreamResult.ok ["x".toList]) readyState
    (Or.inl rfl)

end NeoOtto
